import Mathlib

/-!
Shallow embedding of `src/gromacs/selection/selectioncollection.cpp`
(gmx::SelectionCollection and its internal helpers).

The selection collection owns a chain of selection ASTs (`t_selelem`,
linked through `child`/`next` pointers), a list of parsed selections
(`sc.sel`), an optional topology, and an optional external index-group
source.  External collaborators that live in other files of the
repository (the flex/bison scanner and push parser, the index-group
lookup helpers, `_gmx_selelem_requires_top`, the selection compiler and
evaluator) are modelled as abstract parameters or, where the spec pins
their behaviour down, as definitions modelled from the spec.
-/

set_option autoImplicit false

namespace GmxSel

/-! ## Index groups (`gmx_ana_indexgrps_t`, external collaborator)

An externally supplied index group: a named, ordered set of particle
indices (read-only for the selection subsystem).  The lookup helpers
`gmx_ana_indexgrps_find` (by name) and `gmx_ana_indexgrps_extract` (by
ordinal) live outside the shown sources, so the group source is kept
abstract as a pair of lookup functions. -/

structure IndexGroup where
  name : Option String
  indices : List Int
deriving DecidableEq, Repr

structure IndexGroups where
  byName : String → Option IndexGroup
  byId : Int → Option IndexGroup

/-! ## Selection AST (`t_selelem`)

Only the fields that `SelectionCollection` itself touches are modelled:
the element type (`SEL_GROUPREF` with its `u.gref` payload, `SEL_CONST`
with its `u.cgrp` payload, everything else collapsed into `other`), the
`name` field, and the `child`/`next` links.  The `child`/`next` pointer
structure of the C code is kept literally: a tree is either the null
pointer or a node with a first-child chain and a next-sibling chain. -/

inductive SelElemData where
  | groupRef (gname : Option String) (id : Int)
  | const (grp : IndexGroup)
  | other
deriving DecidableEq, Repr

inductive SelTree where
  | nil
  | node (data : SelElemData) (name : Option String) (child : SelTree) (next : SelTree)
deriving DecidableEq, Repr

/-- The error message appended by
`SelectionCollection::Impl::resolveExternalGroups` on every failed
lookup (lines 289, 298, 312 of `selectioncollection.cpp`). -/
def unknownGroupMsg : String := "Unknown group referenced in a selection"

/-- The lookup performed by `resolveExternalGroups` for one
`SEL_GROUPREF` element: no group source at all fails, a named reference
uses `gmx_ana_indexgrps_find`, a numbered one
`gmx_ana_indexgrps_extract`.  (Specification device used to state
theorems; `resolveNode` below is the translation of the source.) -/
def lookupGroup (grps : Option IndexGroups) (gname : Option String) (id : Int) :
    Option IndexGroup :=
  match grps with
  | none => none
  | some g =>
    match gname with
    | some n => g.byName n
    | none => g.byId id

/-- The body of `SelectionCollection::Impl::resolveExternalGroups`
(lines 283-321) acting on one element's `type`/`name` fields.  On a
successful lookup the element becomes `SEL_CONST` carrying the frozen
index set in `u.cgrp`, and `name` is set to the group's name; on a
failed lookup an error message is appended and the element is left
unchanged.  Non-`SEL_GROUPREF` elements are untouched. -/
def resolveNode (grps : Option IndexGroups) (d : SelElemData) (name : Option String) :
    SelElemData × Option String × List String :=
  match d with
  | .groupRef gname id =>
    match grps with
    | none => (.groupRef gname id, name, [unknownGroupMsg])
    | some g =>
      match gname with
      | some n =>
        match g.byName n with
        | none => (.groupRef gname id, name, [unknownGroupMsg])
        | some grp => (.const grp, grp.name, [])
      | none =>
        match g.byId id with
        | none => (.groupRef gname id, name, [unknownGroupMsg])
        | some grp => (.const grp, grp.name, [])
  | .const grp => (.const grp, name, [])
  | .other => (.other, name, [])

/-- `resolveExternalGroups` applied along a sibling chain:
both the `while (child != NULL)` loop inside
`resolveExternalGroups` (lines 323-328) and the `while (root != NULL)`
loop of `setIndexGroups` (lines 440-445) resolve every element of a
`next`-linked chain, each element's own node first, then its child
chain.  Errors are accumulated in traversal order into the
`MessageStringCollector`. -/
def resolveChain (grps : Option IndexGroups) : SelTree → SelTree × List String
  | .nil => (.nil, [])
  | .node d n c nx =>
    let r := resolveNode grps d n
    let rc := resolveChain grps c
    let rn := resolveChain grps nx
    (.node r.1 r.2.1 rc.1 rn.1, r.2.2 ++ rc.2 ++ rn.2)

/-- `SelectionCollection::Impl::resolveExternalGroups` on a single root:
resolves the root element itself and (recursively) its whole child
chain, leaving the root's `next` link untouched. -/
def resolveExternalGroups (grps : Option IndexGroups) : SelTree → SelTree × List String
  | .nil => (.nil, [])
  | .node d n c nx =>
    let r := resolveNode grps d n
    let rc := resolveChain grps c
    (.node r.1 r.2.1 rc.1 nx, r.2.2 ++ rc.2)

/-- `true` iff no element of the chain (including children) is an
unresolved `SEL_GROUPREF`. -/
def chainNoGroupRef : SelTree → Bool
  | .nil => true
  | .node d _ c nx =>
    (match d with | .groupRef _ _ => false | _ => true)
      && chainNoGroupRef c && chainNoGroupRef nx

/-! ## The parser driver (`runParser`, lines 204-274)

The flex scanner and the bison push parser live in `scanner.l` /
`parser.y`, outside the shown sources.  Their net effect on one
`runParser` call is: zero or more selections are appended to `sc->sel`
by the parser's semantic actions, zero or more error messages are
appended to the `MessageStringCollector`, and the final
`_gmx_sel_yypush_parse` status is an integer (`0` = accepted).  That
net effect is taken as an abstract `ParserLoopOutcome`; the epilogue of
`runParser` (lines 251-273: the selection-count check, the single
throw, and the construction of the returned handle list) is translated
below. -/

structure ParserLoopOutcome (α : Type) where
  appended : List α
  status : Int
  errors : List String
deriving DecidableEq, Repr

/-- The message appended by `runParser` when an explicit selection
count was requested but not met (line 256). -/
def tooFewMsg : String := "Too few selections provided"

/-- Lines 251-273 of `runParser`: compute `nr` as the growth of
`sc->sel`, fail the call when an explicit count `maxnr > 0` is not met
exactly, throw a single `InvalidInputError` carrying the whole
accumulated report when the parse failed or the report is non-empty,
and otherwise return one `Selection` handle per newly appended
selection, in order.  The first component is the final `sc->sel` list
(which keeps everything the parser appended, also on failure: the code
notes "TODO: Remove added selections from the collection if parsing
failed?"); the second is the thrown error or the returned handle
list. -/
def runParserTail {α : Type} (oldSel : List α) (out : ParserLoopOutcome α)
    (maxnr : Int) : List α × Except (List String) (List α) :=
  let sel := oldSel ++ out.appended
  let nr : Int := (sel.length : Int) - (oldSel.length : Int)
  let bOk := out.status == 0
  let countMismatch := decide (0 < maxnr) && decide (nr ≠ maxnr)
  let bOk' := bOk && !countMismatch
  let errors := if countMismatch then out.errors ++ [tooFewMsg] else out.errors
  if !bOk' || !errors.isEmpty then
    (sel, .error errors)
  else
    (sel, .ok (sel.drop oldSel.length))

/-! ## The interactive line loop (lines 217-243)

`runParserLoop` feeds tokens to the push parser until it returns
something other than `YYPUSH_MORE`; in interactive mode it stops at
end of line (token 0).  What one line contributes is again abstract: a
final status and the error messages its parse appended to the shared
`MessageStringCollector`. -/

/-- The status with which the bison push parser asks for more input. -/
def YYPUSH_MORE : Int := 4

structure LineParseResult where
  status : Int
  errors : List String
deriving DecidableEq, Repr

/-- The `while (promptLine(...))` loop of `runParser`'s `bStdIn` branch
(lines 223-241), carrying the `MessageStringCollector` contents `acc`
explicitly.  Each line's parse appends its errors to the collector; a
status other than `YYPUSH_MORE` jumps to `early_termination`, leaving
the remaining lines unread; otherwise, in interactive mode a non-empty
collector is printed (collected here into the second component) and
cleared, and the next line is read.  When the lines run out, the parser
is finalized with `_gmx_sel_yypush_parse(state, 0, NULL, scanner)`,
whose status is the abstract `finalStatus`.  Result:
`(final status, reported error batches, collector contents, unread lines)`. -/
def runStdinLoop (bInteractive : Bool) :
    List LineParseResult → List String → Int →
    Int × List (List String) × List String × List LineParseResult
  | [], acc, finalStatus => (finalStatus, [], acc, [])
  | l :: rest, acc, finalStatus =>
    let acc' := acc ++ l.errors
    if l.status ≠ YYPUSH_MORE then
      (l.status, [], acc', rest)
    else
      let reported := if bInteractive && !acc'.isEmpty then [acc'] else []
      let accNext := if bInteractive && !acc'.isEmpty then [] else acc'
      let r := runStdinLoop bInteractive rest accNext finalStatus
      (r.1, reported ++ r.2.1, r.2.2)

/-! ## `promptLine` (lines 127-159)

Line-based reading for interactive mode.  `File::readLine` is modelled
as popping the head of a list of physical lines (each as returned by
`readLine`, i.e. normally terminated by `'\n'`); at end of file it
returns `false` / leaves the buffer empty.  Strings are modelled as
`List Char`.  The `fprintf` prompts are I/O only and dropped. -/

/-- `gmx::endsWith` from `stringutil.h`. -/
def endsWith (line suffix : List Char) : Bool := suffix.isSuffixOf line

/-- The two-character continuation marker `"\\\n"`. -/
def contMarker : List Char := ['\\', '\n']

theorem endsWith_length_le {l s : List Char} (h : endsWith l s = true) :
    s.length ≤ l.length := by
  have : s <:+ l := by
    simpa [endsWith, List.isSuffixOf_iff_suffix] using h
  exact this.length_le

/-- The `while (endsWith(*line, "\\\n"))` loop of `promptLine`
(lines 137-149): drop the marker's two characters, read the next
physical line into a buffer (empty at end of file) and append it,
repeating while the assembled line still ends with the marker. -/
def contLoop (line : List Char) (ls : List (List Char)) :
    List Char × List (List Char) :=
  if hm : endsWith line contMarker = true then
    match ls with
    | [] => contLoop (line.take (line.length - 2)) []
    | b :: rest => contLoop (line.take (line.length - 2) ++ b) rest
  else
    (line, ls)
termination_by line.length + (ls.map List.length).sum + ls.length
decreasing_by
  · have h2 : 2 ≤ line.length := endsWith_length_le hm
    simp only [List.length_take, List.map_nil, List.sum_nil, List.length_nil]
    omega
  · simp only [List.length_append, List.length_take, List.map_cons, List.sum_cons,
      List.length_cons]
    omega

/-- `promptLine` (lines 127-159): read one physical line (`false` at
end of input), splice continuation lines, then strip the single
trailing newline of the assembled line before it is handed to the
lexer.  (The C function's `return line;` converts a non-null pointer,
so a successful first read always yields `true`.) -/
def promptLine : List (List Char) → Option (List Char × List (List Char))
  | [] => none
  | first :: rest =>
    let r := contLoop first rest
    let line := if endsWith r.1 ['\n'] then r.1.take (r.1.length - 1) else r.1
    some (line, r.2)

/-- The chopped text contributed by a sequence of continuation lines:
each line minus its final two characters (`line->resize(line->length() - 2)`). -/
def chopped (ps : List (List Char)) : List Char :=
  (ps.map (fun p => p.take (p.length - 2))).flatten

/-! ## The collection state and `setIndexGroups` (lines 431-450) -/

/-- The state of one `SelectionCollection` that the modelled operations
touch: whether a topology has been supplied (`sc.top != NULL`), the
reference and output position type strings (`_rpost`, `_spost`), the
root chain of parsed ASTs (`sc.root`), the external-group flag
(`_bExternalGroupsSet`) and the group source (`_grps`). -/
structure CollectionState where
  hasTop : Bool
  rpost : String
  spost : String
  root : SelTree
  bExternalGroupsSet : Bool
  grps : Option IndexGroups

/-- Outcome of `SelectionCollection::setIndexGroups`: normal return,
`GMX_RELEASE_ASSERT` violation, or a thrown `InvalidInputError`
carrying the accumulated resolution errors. -/
inductive SetGroupsResult where
  | ok
  | assertionFailed
  | invalidInput (msgs : List String)
deriving DecidableEq, Repr

/-- `SelectionCollection::setIndexGroups` (lines 431-450).  The release
assertion `grps == NULL || !_bExternalGroupsSet` fires (aborting before
any mutation) if a non-NULL source is supplied after any earlier call.
Otherwise `_grps` and `_bExternalGroupsSet` are set, every root of the
already-parsed chain has its external group references resolved in
place, and accumulated errors are thrown as one `InvalidInputError`
(the mutations persist across the throw). -/
def setIndexGroups (st : CollectionState) (g : Option IndexGroups) :
    CollectionState × SetGroupsResult :=
  if g.isSome && st.bExternalGroupsSet then
    (st, .assertionFailed)
  else
    let r := resolveChain g st.root
    let st' := { st with grps := g, bExternalGroupsSet := true, root := r.1 }
    (st', if r.2.isEmpty then .ok else .invalidInput r.2)

/-! ## `requiresTopology` (lines 453-493) and `compile` (lines 536-569) -/

/-- Modelled from the spec: `PositionCalculationCollection::typeFromEnum`
(declared in `poscalc.h`, outside the shown sources) maps a position
type string from `typeEnumValues` to a calculation type; `"atom"` is
`typeEnumValues[0]`, the default, and is the only string mapping to
`POS_ATOM` (raw atom coordinates) — every other position type
(residue/molecule based, per the spec's position types) is a derived,
topology-requiring type. -/
def typeFromEnumIsAtom (s : String) : Bool := s == "atom"

/-- The `while (sel)` loop of `requiresTopology` (lines 483-491):
`_gmx_selelem_requires_top` (in `selelem.cpp`, outside the shown
sources) inspects one element and its children, so it is abstracted as
a function `f` on a single root (its `next` link masked off). -/
def chainRequiresTop (f : SelTree → Bool) : SelTree → Bool
  | .nil => false
  | .node d n c nx => f (.node d n c .nil) || chainRequiresTop f nx

/-- `SelectionCollection::requiresTopology` (lines 453-493): `true` if
the reference position type is set and not raw-atom, or the output
position type is set and not raw-atom, or any parsed root requires
topology information. -/
def requiresTopology (f : SelTree → Bool) (st : CollectionState) : Bool :=
  (!(st.rpost == "") && !typeFromEnumIsAtom st.rpost)
    || (!(st.spost == "") && !typeFromEnumIsAtom st.spost)
    || chainRequiresTop f st.root

/-- Outcome of `SelectionCollection::compile`. -/
inductive CompileOutcome where
  | ok
  /-- the `InconsistentInputError` of line 541 -/
  | topologyRequired
  /-- an `InvalidInputError` propagated from `setIndexGroups(NULL)` -/
  | unresolvedGroups (msgs : List String)
  /-- an abstract failure inside `SelectionCompiler::compile` -/
  | compilerFailed
deriving DecidableEq, Repr

/-- The externally visible steps of a `compile()` call, in order. -/
inductive CompileEvent where
  | groupResolution
  | compilerPass
  | initEvaluation
deriving DecidableEq, Repr

/-- `SelectionCollection::compile` (lines 536-569).  First the topology
check: with no topology supplied and `requiresTopology()` true, an
`InconsistentInputError` is thrown before anything else runs.  Then, if
external groups were never set, `setIndexGroups(NULL)` resolves (and
possibly fails on) remaining group references.  Only then does
`SelectionCompiler::compile` run (its body lives in `compiler.cpp`,
outside the shown sources; its success is the abstract `compilerOk`),
followed by `pcc.initEvaluation()`.  Debug printing is I/O only and
dropped.  Returns the outcome and the trace of steps that ran. -/
def compile (f : SelTree → Bool) (compilerOk : Bool) (st : CollectionState) :
    CompileOutcome × List CompileEvent :=
  if !st.hasTop && requiresTopology f st then
    (.topologyRequired, [])
  else
    let step :=
      if !st.bExternalGroupsSet then
        ((setIndexGroups st none).1, (setIndexGroups st none).2,
          [CompileEvent.groupResolution])
      else (st, SetGroupsResult.ok, [])
    match step.2.1 with
    | .invalidInput msgs => (.unresolvedGroups msgs, step.2.2)
    | .assertionFailed => (.unresolvedGroups [], step.2.2)
    | .ok =>
      if compilerOk then (.ok, step.2.2 ++ [.compilerPass, .initEvaluation])
      else (.compilerFailed, step.2.2 ++ [.compilerPass])

/-! ## `evaluate` (lines 572-585) -/

/-- The externally visible steps of an `evaluate(fr, pbc)` call. -/
inductive EvalEvent where
  | pccInitFrame
  | evaluatorEvaluate
  | debugPrintTree
deriving DecidableEq, Repr

/-- `SelectionCollection::evaluate` (lines 572-585) as its sequence of
steps: `_impl->_sc.pcc.initFrame()` (the Position Calculation
Registry's per-frame initialization) runs first, then
`SelectionEvaluator::evaluate` walks the compiled trees, then (at debug
level ≥ 3 only) the evaluated tree is printed. -/
def evaluateEvents (debugLevel : Int) : List EvalEvent :=
  [.pccInitFrame, .evaluatorEvaluate]
    ++ (if 3 ≤ debugLevel then [.debugPrintTree] else [])

/-! ## Helper lemmas -/

theorem resolveNode_lookup (grps : Option IndexGroups) (gname : Option String)
    (id : Int) (name : Option String) :
    resolveNode grps (.groupRef gname id) name =
      (match lookupGroup grps gname id with
       | some grp => (.const grp, grp.name, ([] : List String))
       | none => (.groupRef gname id, name, [unknownGroupMsg])) := by
  cases grps with
  | none => rfl
  | some g =>
    cases gname with
    | some n => cases hb : g.byName n <;> simp [resolveNode, lookupGroup, hb]
    | none => cases hb : g.byId id <;> simp [resolveNode, lookupGroup, hb]

theorem resolveNode_ok_iff (grps : Option IndexGroups) (d : SelElemData)
    (name : Option String) :
    (resolveNode grps d name).2.2 = [] ↔
      (match (resolveNode grps d name).1 with
       | .groupRef _ _ => false
       | _ => true) = true := by
  cases d with
  | groupRef gn i =>
    cases grps with
    | none => simp [resolveNode, unknownGroupMsg]
    | some g =>
      cases gn with
      | some n => cases hb : g.byName n <;> simp [resolveNode, hb, unknownGroupMsg]
      | none => cases hb : g.byId i <;> simp [resolveNode, hb, unknownGroupMsg]
  | const grp => simp [resolveNode]
  | other => simp [resolveNode]

theorem resolveChain_errors_iff (grps : Option IndexGroups) (t : SelTree) :
    (resolveChain grps t).2 = [] ↔
      chainNoGroupRef (resolveChain grps t).1 = true := by
  induction t with
  | nil => simp [resolveChain, chainNoGroupRef]
  | node d n c nx ihc ihn =>
    have h1 := resolveNode_ok_iff grps d n
    simp only [resolveChain, chainNoGroupRef, List.append_eq_nil,
      Bool.and_eq_true] at *
    tauto

/-! ## Claims -/

/-- C2: after group resolution over the whole root chain completes with
no accumulated error, no `SEL_GROUPREF` element remains anywhere in the
resolved chain (and conversely, an unresolved reference always leaves
an error, so `setIndexGroups` throws and no compiled tree ever holds
one); and resolving one `SEL_GROUPREF` element succeeds exactly when
the named/numbered group can be looked up, turning the element into a
`SEL_CONST` carrying the frozen index set of that group. -/
theorem C2_groupResolution (grps : Option IndexGroups) (t : SelTree) :
    ((resolveChain grps t).2 = [] ↔
      chainNoGroupRef (resolveChain grps t).1 = true)
    ∧ ∀ gname id name,
        resolveNode grps (.groupRef gname id) name =
          (match lookupGroup grps gname id with
           | some grp => (.const grp, grp.name, ([] : List String))
           | none => (.groupRef gname id, name, [unknownGroupMsg])) :=
  ⟨resolveChain_errors_iff grps t, fun gname id name =>
    resolveNode_lookup grps gname id name⟩

/-- C10: once `setIndexGroups` has completed without violating its
release assertion, a second call with a non-NULL group source always
violates the assertion, while clearing with NULL never does; and the
call immediately resolves the external group references of every
already-parsed root in place. -/
theorem C10_setIndexGroupsOnce (st : CollectionState) (g : Option IndexGroups)
    (h : (setIndexGroups st g).2 ≠ .assertionFailed) :
    (∀ g' : IndexGroups,
        (setIndexGroups (setIndexGroups st g).1 (some g')).2 = .assertionFailed)
    ∧ (setIndexGroups (setIndexGroups st g).1 none).2 ≠ .assertionFailed
    ∧ (setIndexGroups st g).1.root = (resolveChain g st.root).1 := by
  by_cases hc : (g.isSome && st.bExternalGroupsSet) = true
  · exact absurd (by simp [setIndexGroups, hc]) h
  · rw [Bool.not_eq_true] at hc
    refine ⟨fun g' => ?_, ?_, ?_⟩
    · simp [setIndexGroups, hc]
    · simp only [setIndexGroups, hc, Bool.false_eq_true, if_false,
        Option.isSome_none, Bool.false_and]
      split <;> simp
    · simp [setIndexGroups, hc]

/-- C10 witness: a first (clearing) call on a fresh collection
completes; afterwards supplying a real group source hits the assertion,
clearing again does not, and the root chain was resolved in place. -/
theorem C10_setIndexGroupsOnce_witness :
    (∀ g' : IndexGroups,
        (setIndexGroups
          (setIndexGroups ⟨false, "atom", "atom", .nil, false, none⟩ none).1
          (some g')).2 = .assertionFailed)
    ∧ (setIndexGroups
        (setIndexGroups ⟨false, "atom", "atom", .nil, false, none⟩ none).1
        none).2 ≠ .assertionFailed
    ∧ (setIndexGroups ⟨false, "atom", "atom", .nil, false, none⟩ none).1.root
        = (resolveChain none SelTree.nil).1 :=
  C10_setIndexGroupsOnce ⟨false, "atom", "atom", .nil, false, none⟩ none
    (by simp [setIndexGroups, resolveChain])

/-- C8: in every `evaluate(frame, pbc)` call, the Position Calculation
Registry's per-frame initialization (`pcc.initFrame()`) occurs in the
call's step sequence strictly before the evaluator walks the compiled
trees, whatever the debug level. -/
theorem C8_initFrameBeforeEvaluate (debugLevel : Int) :
    EvalEvent.pccInitFrame ∈ evaluateEvents debugLevel
    ∧ EvalEvent.evaluatorEvaluate ∈ evaluateEvents debugLevel
    ∧ (evaluateEvents debugLevel).indexOf EvalEvent.pccInitFrame <
        (evaluateEvents debugLevel).indexOf EvalEvent.evaluatorEvaluate := by
  unfold evaluateEvents
  split <;> refine ⟨by decide, by decide, by decide⟩

/-- C8 has a universally quantified debug level; at the default debug
level `0` the initialization still precedes the tree walk. -/
theorem C8_initFrameBeforeEvaluate_witness :
    EvalEvent.pccInitFrame ∈ evaluateEvents 0
    ∧ EvalEvent.evaluatorEvaluate ∈ evaluateEvents 0
    ∧ (evaluateEvents 0).indexOf EvalEvent.pccInitFrame <
        (evaluateEvents 0).indexOf EvalEvent.evaluatorEvaluate :=
  C8_initFrameBeforeEvaluate 0

/-- C1: a parse call made with an explicit requested selection count
`N > 0` that obtains fewer than `N` complete selections by end of input
throws a single descriptive error whose report contains the
count-mismatch message, instead of returning a shorter handle list. -/
theorem C1_countMismatchFails {α : Type} (oldSel : List α)
    (out : ParserLoopOutcome α) (maxnr : Int) (h1 : 0 < maxnr)
    (h2 : (out.appended.length : Int) < maxnr) :
    ∃ errs, (runParserTail oldSel out maxnr).2 = .error errs
      ∧ tooFewMsg ∈ errs := by
  refine ⟨out.errors ++ [tooFewMsg], ?_, by simp⟩
  simp only [runParserTail, List.length_append]
  push_cast
  rw [add_sub_cancel_left]
  rw [decide_eq_true h1,
    decide_eq_true (show (out.appended.length : Int) ≠ maxnr by omega)]
  simp

/-- C1 witness: requesting 1 selection from input yielding none fails
with the count-mismatch message. -/
theorem C1_countMismatchFails_witness :
    ∃ errs, (runParserTail ([] : List Nat) ⟨[], 0, []⟩ 1).2 = .error errs
      ∧ tooFewMsg ∈ errs :=
  C1_countMismatchFails [] ⟨[], 0, []⟩ 1 (by decide) (by decide)

/-- C4: for a non-interactive parse call (`parseFromString` /
`parseFromFile` both run the parser with `maxnr = -1`), every error
accumulated while processing the input is raised as one single failure
at the end of the call carrying exactly the accumulated report, and the
call succeeds (returning the newly parsed selections) precisely when
the parse accepted and the accumulated report is empty. -/
theorem C4_accumulatedReport {α : Type} (oldSel : List α)
    (out : ParserLoopOutcome α) :
    (runParserTail oldSel out (-1)).2 =
      if out.status = 0 ∧ out.errors = [] then .ok out.appended
      else .error out.errors := by
  simp only [runParserTail]
  rw [show decide (0 < (-1 : Int)) = false from by decide]
  by_cases h1 : out.status = 0 <;> by_cases h2 : out.errors = [] <;>
    simp [h1, h2, List.drop_left, List.isEmpty_iff]

/-- C7: every successful parse call returns exactly one handle per
selection newly added by that call, in parse order: the returned list
is the newly appended suffix of the collection's selection list, and
its length is the collection's selection count after the call minus the
count before it. -/
theorem C7_oneHandlePerSelection {α : Type} (oldSel : List α)
    (out : ParserLoopOutcome α) (maxnr : Int) (l : List α)
    (h : (runParserTail oldSel out maxnr).2 = .ok l) :
    l = out.appended
    ∧ oldSel.length + l.length = (runParserTail oldSel out maxnr).1.length := by
  have h1 : (runParserTail oldSel out maxnr).1 = oldSel ++ out.appended := by
    simp only [runParserTail]
    split <;> split <;> rfl
  simp only [runParserTail] at h
  split at h <;> split at h
  · simp at h
  · simp only [List.drop_left, Except.ok.injEq] at h
    subst h
    exact ⟨rfl, by rw [h1]; simp⟩
  · simp at h
  · simp only [List.drop_left, Except.ok.injEq] at h
    subst h
    exact ⟨rfl, by rw [h1]; simp⟩

/-- C7 witness: parsing two selections into a collection holding one
returns exactly the two new handles, and `1 + 2 = 3` selections are in
the collection afterwards. -/
theorem C7_oneHandlePerSelection_witness :
    ([2, 3] : List Nat) = (⟨[2, 3], 0, []⟩ : ParserLoopOutcome Nat).appended
    ∧ ([1] : List Nat).length + ([2, 3] : List Nat).length
        = (runParserTail [1] (⟨[2, 3], 0, []⟩ : ParserLoopOutcome Nat) (-1)).1.length :=
  C7_oneHandlePerSelection [1] ⟨[2, 3], 0, []⟩ (-1) [2, 3] rfl

/-- C9: a failed parse call is not atomic: the selections the parser
appended before the failure stay in the collection's selection list
(the final list is the old list plus everything appended), even though
the call throws and returns no handles. -/
theorem C9_noRollbackOnFailure {α : Type} (oldSel : List α)
    (out : ParserLoopOutcome α) (maxnr : Int) (e : List String)
    (h : (runParserTail oldSel out maxnr).2 = .error e) :
    (runParserTail oldSel out maxnr).1 = oldSel ++ out.appended := by
  clear h
  simp only [runParserTail]
  split <;> split <;> rfl

/-- C9 witness: a parse whose push parser rejects (status 5) throws,
yet the selection appended before the failure stays in the list. -/
theorem C9_noRollbackOnFailure_witness :
    (runParserTail [1] (⟨[2], 5, []⟩ : ParserLoopOutcome Nat) (-1)).1
      = [1] ++ [2] :=
  C9_noRollbackOnFailure [1] ⟨[2], 5, []⟩ (-1) [] rfl

/-- C3: `compile()` throws the topology-required error exactly when no
topology has been supplied and some construct needs one; in that case
it aborts before any compiler pass runs (the step trace is empty), and
when no construct needs a topology a topology-less compilation runs to
success (given that group resolution and the compiler itself raise no
other error). -/
theorem C3_topologyGate (f : SelTree → Bool) (compilerOk : Bool)
    (st : CollectionState) :
    ((compile f compilerOk st).1 = .topologyRequired
        ↔ (st.hasTop = false ∧ requiresTopology f st = true))
    ∧ ((compile f compilerOk st).1 = .topologyRequired →
        (compile f compilerOk st).2 = [])
    ∧ (st.hasTop = false → requiresTopology f st = false → compilerOk = true →
        (resolveChain none st.root).2 = [] →
        (compile f compilerOk st).1 = .ok) := by
  by_cases hc : (!st.hasTop && requiresTopology f st) = true
  · obtain ⟨h1, h2⟩ : st.hasTop = false ∧ requiresTopology f st = true := by
      simpa using hc
    refine ⟨by simp [compile, hc, h1, h2], by simp [compile, hc], ?_⟩
    intro _ hreq _ _
    rw [hreq] at h2
    cases h2
  · have hcf : (!st.hasTop && requiresTopology f st) = false :=
      Bool.not_eq_true _ ▸ eq_false_of_ne_true hc
    have hcr : ¬(st.hasTop = false ∧ requiresTopology f st = true) := by
      rintro ⟨x, y⟩
      rw [x, y] at hcf
      simp at hcf
    have hne : (compile f compilerOk st).1 ≠ .topologyRequired := by
      simp only [compile, hcf, Bool.false_eq_true, if_false]
      split <;> try simp
      split <;> simp
    refine ⟨by simpa [hne] using hcr, fun h => absurd h hne, ?_⟩
    intro _ _ hcomp hres
    subst hcomp
    by_cases hb : st.bExternalGroupsSet = true
    · simp [compile, hcf, hb]
    · have hb' : st.bExternalGroupsSet = false := eq_false_of_ne_true hb
      simp [compile, hcf, hb', setIndexGroups, hres]

/-- C3 witness: an empty collection with atom position types and no
topology compiles successfully, and it is not in the topology-required
failure case. -/
theorem C3_topologyGate_witness :
    (compile (fun _ => false) true ⟨false, "atom", "atom", .nil, false, none⟩).1
        = .ok
    ∧ ¬((⟨false, "atom", "atom", .nil, false, none⟩ : CollectionState).hasTop = false
        ∧ requiresTopology (fun _ => false)
            ⟨false, "atom", "atom", .nil, false, none⟩ = true) :=
  ⟨(C3_topologyGate (fun _ => false) true
      ⟨false, "atom", "atom", .nil, false, none⟩).2.2 rfl (by decide) rfl rfl,
   by decide⟩

/-! ## C5: the interactive session loop -/

theorem runStdinLoop_all_more (finalStatus : Int) :
    ∀ (lines : List LineParseResult),
      (∀ l ∈ lines, l.status = YYPUSH_MORE) →
      runStdinLoop true lines [] finalStatus
        = (finalStatus,
           (lines.filter (fun l => !l.errors.isEmpty)).map (fun l => l.errors),
           [], []) := by
  intro lines
  induction lines with
  | nil => intro _; simp [runStdinLoop]
  | cons l rest ih =>
    intro h
    have hl : l.status = YYPUSH_MORE := h l (by simp)
    have hrest := ih fun x hx => h x (List.mem_cons_of_mem _ hx)
    by_cases he : l.errors.isEmpty = true
    · have he' : l.errors = [] := by simpa [List.isEmpty_iff] using he
      simp [runStdinLoop, hl, he', hrest]
    · have he' : l.errors.isEmpty = false := eq_false_of_ne_true he
      simp [runStdinLoop, hl, he', hrest]

theorem runStdinLoop_early_termination (finalStatus : Int) :
    ∀ (lines : List LineParseResult) (acc : List String),
      (runStdinLoop true lines acc finalStatus).2.2.2 ≠ [] →
      ∃ l ∈ lines, l.status ≠ YYPUSH_MORE := by
  intro lines
  induction lines with
  | nil => intro acc h; simp [runStdinLoop] at h
  | cons l rest ih =>
    intro acc h
    by_cases hs : l.status = YYPUSH_MORE
    · simp only [runStdinLoop, hs, ne_eq, not_true_eq_false, if_neg,
        not_false_eq_true] at h
      obtain ⟨x, hx, hxs⟩ := ih _ h
      exact ⟨x, List.mem_cons_of_mem _ hx, hxs⟩
    · exact ⟨l, by simp, hs⟩

/-- C5: in the interactive session loop, when every line's parse leaves
the push parser in the "more input" state, every input line is read and
attempted (none left unprocessed), and each line whose parse failed
recoverably has exactly its accumulated errors reported and cleared
before the next line; the loop leaves lines unread only when some
line's parse put the parser in an unrecoverable (non-`YYPUSH_MORE`)
state, end of input being the only other way out. -/
theorem C5_interactiveRecovery (lines : List LineParseResult)
    (finalStatus : Int) :
    ((∀ l ∈ lines, l.status = YYPUSH_MORE) →
      runStdinLoop true lines [] finalStatus
        = (finalStatus,
           (lines.filter (fun l => !l.errors.isEmpty)).map (fun l => l.errors),
           [], []))
    ∧ ((runStdinLoop true lines [] finalStatus).2.2.2 ≠ [] →
        ∃ l ∈ lines, l.status ≠ YYPUSH_MORE) :=
  ⟨runStdinLoop_all_more finalStatus lines,
   runStdinLoop_early_termination finalStatus lines []⟩

/-- C5 witness: a session where the first line fails recoverably still
reads and attempts the second line; the failing line's errors are
reported as one batch and the collector ends empty. -/
theorem C5_interactiveRecovery_witness :
    runStdinLoop true [⟨YYPUSH_MORE, ["syntax error"]⟩, ⟨YYPUSH_MORE, []⟩] [] 0
      = (0, [["syntax error"]], [], []) :=
  (C5_interactiveRecovery
      [⟨YYPUSH_MORE, ["syntax error"]⟩, ⟨YYPUSH_MORE, []⟩] 0).1 (by decide)

/-! ## C6: line continuation in `promptLine` -/

theorem endsWith_append_of_le (A q s : List Char) (h : s.length ≤ q.length) :
    endsWith (A ++ q) s = endsWith q s := by
  rw [Bool.eq_iff_iff]
  simp only [endsWith, List.isSuffixOf_iff_suffix]
  rw [List.suffix_iff_eq_drop, List.suffix_iff_eq_drop, List.length_append,
    show A.length + q.length - s.length = A.length + (q.length - s.length) by
      omega,
    List.drop_append]

theorem take_append_two (x : List Char) (a b : Char) :
    (x ++ [a, b]).take ((x ++ [a, b]).length - 2) = x := by
  have h : (x ++ [a, b]).length - 2 = x.length := by simp
  rw [h]
  exact List.take_left x [a, b]

theorem take_append_one (x : List Char) (a : Char) :
    (x ++ [a]).take ((x ++ [a]).length - 1) = x := by
  have h : (x ++ [a]).length - 1 = x.length := by simp
  rw [h]
  exact List.take_left x [a]

theorem contLoop_done (line : List Char) (ls : List (List Char))
    (h : endsWith line contMarker = false) :
    contLoop line ls = (line, ls) := by
  rw [contLoop.eq_def]
  simp [h]

theorem contLoop_step (line : List Char) (ls : List (List Char))
    (h : endsWith line contMarker = true) (hne : ls ≠ []) :
    contLoop line ls
      = contLoop (line.take (line.length - 2) ++ ls.headI) ls.tail := by
  cases ls with
  | nil => exact absurd rfl hne
  | cons b rest =>
    rw [contLoop.eq_def]
    simp [h]

theorem contLoop_chain (q : List Char) (rest : List (List Char))
    (hq2 : 2 ≤ q.length) (hqm : endsWith q contMarker = false) :
    ∀ (ps : List (List Char)) (A : List Char),
      (∀ p ∈ ps, ∃ u, p = u ++ contMarker) →
      contLoop (A ++ (ps ++ q :: rest).headI) ((ps ++ q :: rest).tail)
        = (A ++ (chopped ps ++ q), rest) := by
  intro ps
  induction ps with
  | nil =>
    intro A _
    simp only [List.nil_append, List.headI_cons, List.tail_cons]
    rw [contLoop_done]
    · simp [chopped]
    · rw [endsWith_append_of_le A q contMarker
        (by simpa [contMarker] using hq2)]
      exact hqm
  | cons p ps' ih =>
    intro A hp
    obtain ⟨u, hu⟩ := hp p (by simp)
    simp only [List.cons_append, List.headI_cons, List.tail_cons]
    rw [hu]
    rw [contLoop_step _ _ ?hmark (by simp)]
    case hmark =>
      have : contMarker <:+ A ++ (u ++ contMarker) := by
        rw [← List.append_assoc]
        exact List.suffix_append _ _
      simpa [endsWith, List.isSuffixOf_iff_suffix] using this
    have hchop :
        (A ++ (u ++ contMarker)).take ((A ++ (u ++ contMarker)).length - 2)
          = A ++ u := by
      rw [← List.append_assoc]
      simpa [contMarker] using take_append_two (A ++ u) '\\' '\n'
    rw [hchop]
    rw [ih (A ++ u) fun x hx => hp x (by simp [hx])]
    have hchopped : chopped ((u ++ contMarker) :: ps') = u ++ chopped ps' := by
      simp only [chopped, List.map_cons, List.flatten_cons]
      congr 1
      exact take_append_two u '\\' '\n'
    rw [hchopped]
    simp

/-- C6: in line-based interactive reading, every physical line ending
with the continuation marker (a trailing backslash before the newline)
has the marker and its newline removed and the next physical line
appended, repeating until the line no longer ends with the marker; the
single trailing newline of the assembled line is then stripped before
it is handed to the lexer, and the remaining physical lines are left
for the next prompt. -/
theorem C6_lineContinuation (ps : List (List Char)) (w : List Char)
    (rest : List (List Char))
    (hps : ∀ p ∈ ps, ∃ u, p = u ++ contMarker)
    (hw : w ≠ [])
    (hqm : endsWith (w ++ ['\n']) contMarker = false) :
    promptLine (ps ++ (w ++ ['\n']) :: rest) = some (chopped ps ++ w, rest) := by
  have hq2 : 2 ≤ (w ++ ['\n']).length := by
    cases w with
    | nil => exact absurd rfl hw
    | cons a t => simp
  have hchain := contLoop_chain (w ++ ['\n']) rest hq2 hqm ps [] hps
  simp only [List.nil_append] at hchain
  have hstrip : ∀ X : List Char,
      (if endsWith (X ++ ['\n']) ['\n'] = true
       then (X ++ ['\n']).take ((X ++ ['\n']).length - 1)
       else X ++ ['\n']) = X := by
    intro X
    have hsw : endsWith (X ++ ['\n']) ['\n'] = true := by
      simp only [endsWith, List.isSuffixOf_iff_suffix]
      exact List.suffix_append X ['\n']
    rw [if_pos hsw]
    exact take_append_one X '\n'
  cases ps with
  | nil =>
    have hch : contLoop (w ++ ['\n']) rest = (w ++ ['\n'], rest) := by
      simpa [chopped] using hchain
    simp only [List.nil_append, promptLine, hch]
    rw [hstrip w]
    simp [chopped]
  | cons p ps' =>
    have hch : contLoop p (ps' ++ (w ++ ['\n']) :: rest)
        = (chopped (p :: ps') ++ (w ++ ['\n']), rest) := by
      simpa using hchain
    simp only [List.cons_append, promptLine, hch]
    rw [show chopped (p :: ps') ++ (w ++ ['\n'])
        = (chopped (p :: ps') ++ w) ++ ['\n'] by simp]
    rw [hstrip (chopped (p :: ps') ++ w)]

/-- C6 witness: the physical lines `"a\\\n"` and `"b\n"` assemble to
the single line `"ab"` handed to the lexer, with no lines left over. -/
theorem C6_lineContinuation_witness :
    promptLine [['a', '\\', '\n'], ['b', '\n']] = some (['a', 'b'], []) := by
  have h := C6_lineContinuation [['a', '\\', '\n']] ['b'] []
    (by
      intro p hp
      simp only [List.mem_singleton] at hp
      subst hp
      exact ⟨['a'], rfl⟩)
    (by simp)
    (by decide)
  simpa [chopped] using h

end GmxSel
